import Mathlib

/-!
Shallow embedding of the EmployWise user-management front end.

The repository is a React client for the reqres demo REST API.  The parts
with actual logic are embedded here as executable Lean definitions:

* the User record and the client-side filter/sort pipeline of the Users page
  (search term, first-letter filter, email-domain filter, name sort);
* the optimistic-state reconciliation of the edit and delete handlers;
* persistence of the filter preferences through browser storage as JSON;
* the axios request interceptor that replays the stored token as a bearer
  credential;
* the login flow (client-side validation, the login API wrapper, token
  storage) and the route guard.

JavaScript strings are modelled as Lean String, with the character-level
operations (split, toLowerCase, includes, charAt) carried out on the
underlying character list so that every definition reduces in the kernel.
Browser storage cells are modelled as Option String (None models an absent
key).  API calls are modelled by an explicit outcome value, since the code
under verification only branches on success versus failure.
-/

set_option autoImplicit false

namespace EmployWise

/-- Model of the User record from the repository's types: numeric id, first
name, last name, email and avatar URL, exactly the fields consumed from the
reqres list-users response. -/
structure User where
  id : Nat
  first_name : String
  last_name : String
  email : String
  avatar : String
deriving DecidableEq

/-- Sort direction state of the Users page, a TypeScript union of the two
string literals. -/
inductive SortDirection where
  | asc
  | desc
deriving DecidableEq

/-- Outcome of an awaited API call as observed by the component: the promise
either resolves or rejects.  The handlers only branch on this. -/
inductive ApiResult where
  | success
  | failure
deriving DecidableEq

/-- Character-level model of JavaScript String.prototype.toLowerCase. -/
def lowerChars (l : List Char) : List Char :=
  l.map Char.toLower

/-- Characters of the template literal joining first and last name with a
single space, as built by the Users page. -/
def fullNameChars (u : User) : List Char :=
  u.first_name.data ++ (' ' :: u.last_name.data)

/-- Model of JavaScript String.prototype.includes: the needle occurs as a
contiguous substring of the haystack. -/
def strIncludes (hay needle : List Char) : Bool :=
  (List.range (hay.length + 1)).any (fun i => needle.isPrefixOf (hay.drop i))

/-- Search predicate of filteredUsers: when the (debounced) search term is
non-empty, its lowercase form must occur in the lowercased full name or in
the lowercased email; an empty term is falsy in JavaScript, so it matches
everything. -/
def searchMatch (term : String) (u : User) : Bool :=
  if term = "" then true
  else
    strIncludes (lowerChars (fullNameChars u)) (lowerChars term.data) ||
      strIncludes (lowerChars u.email.data) (lowerChars term.data)

/-- First-letter predicate of filteredUsers: charAt(0) of the first name,
lowercased, compared with the lowercased selected letter; an empty selection
is falsy and matches everything.  charAt(0) of the empty string is the empty
string, which the take of the character list reproduces. -/
def letterMatch (letter : String) (u : User) : Bool :=
  if letter = "" then true
  else decide (lowerChars (u.first_name.data.take 1) = lowerChars letter.data)

/-- Model of JavaScript String.prototype.split with a single-character
separator: occurrences of the separator cut the string into pieces, with
empty pieces for leading, trailing and adjacent separators, and the empty
string splitting to one empty piece. -/
def splitOnChar (sep : Char) : List Char → List (List Char)
  | [] => [[]]
  | c :: cs =>
    if c = sep then [] :: splitOnChar sep cs
    else
      match splitOnChar sep cs with
      | [] => [[c]]
      | h :: t => (c :: h) :: t

/-- Domain of an email as the Users page computes it: element 1 of the
split on the at sign, None when the email contains no at sign (JavaScript
yields undefined there). -/
def emailDomain (email : String) : Option String :=
  ((splitOnChar '@' email.data)[1]?).map String.mk

/-- Everything after the first occurrence of the separator, to the end of
the list; None when the separator does not occur. -/
def afterFirst (sep : Char) : List Char → Option (List Char)
  | [] => none
  | c :: cs => if c = sep then some cs else afterFirst sep cs

/-- Modelled from the claim wording: the substring of the email after the
at sign, read as everything following the first at sign. -/
def specDomain (email : String) : Option String :=
  (afterFirst '@' email.data).map String.mk

/-- Email with exactly one at sign: splitting on the at sign yields exactly
two pieces.  On such emails the two domain readings coincide. -/
def wellFormedEmail (email : String) : Bool :=
  (splitOnChar '@' email.data).length == 2

/-- Model of a JavaScript Set of strings: the list of its elements in
insertion order, which by construction carries no duplicates. -/
def jsNewSet (l : List String) : List String :=
  l.foldl (fun acc s => if acc.contains s then acc else acc ++ [s]) []

/-- Filter state of the Users page: search term, selected first letter
(empty when none), sort direction and the Set of selected email domains. -/
structure FilterState where
  searchTerm : String
  selectedLetter : String
  sortDirection : SortDirection
  selectedDomains : List String

/-- Domain predicate of filteredUsers: when the selected-domain Set is
non-empty, the Set must contain the email's split-derived domain; an email
without an at sign yields undefined, which the Set of strings never
contains. -/
def domainMatch (sd : List String) (email : String) : Bool :=
  if 0 < sd.length then
    match emailDomain email with
    | some d => sd.contains d
    | none => false
  else true

/-- Domain predicate as the claim words it, with the domain read as the
substring after the first at sign. -/
def specDomainMatch (sd : List String) (email : String) : Bool :=
  if 0 < sd.length then
    match specDomain email with
    | some d => sd.contains d
    | none => false
  else true

/-- Conjunction of the three filter predicates applied by filteredUsers. -/
def matchesFilters (q : FilterState) (u : User) : Bool :=
  searchMatch q.searchTerm u && letterMatch q.selectedLetter u &&
    domainMatch q.selectedDomains u.email

/-- Conjunction of the three filter predicates as the claim words them. -/
def specMatches (q : FilterState) (u : User) : Bool :=
  searchMatch q.searchTerm u && letterMatch q.selectedLetter u &&
    specDomainMatch q.selectedDomains u.email

/-- Sort key of the comparator in filteredUsers: the lowercased full name.
localeCompare is modelled as code-point comparison of these keys. -/
def sortKey (u : User) : List Char :=
  lowerChars (fullNameChars u)

/-- Order relation realised by the sort comparator: ascending or descending
in the lowercased full name. -/
def userOrder : SortDirection → User → User → Prop
  | .asc, a, b => sortKey a ≤ sortKey b
  | .desc, a, b => sortKey b ≤ sortKey a

instance instDecidableUserOrder (dir : SortDirection) : DecidableRel (userOrder dir) :=
  fun a b =>
    match dir with
    | .asc => (inferInstance : Decidable (sortKey a ≤ sortKey b))
    | .desc => (inferInstance : Decidable (sortKey b ≤ sortKey a))

instance instTotalUserOrder (dir : SortDirection) : IsTotal User (userOrder dir) :=
  ⟨by cases dir <;> exact fun a b => le_total _ _⟩

instance instTransUserOrder (dir : SortDirection) : IsTrans User (userOrder dir) :=
  ⟨by
    cases dir
    · exact fun a b c hab hbc => le_trans hab hbc
    · exact fun a b c hab hbc => le_trans hbc hab⟩

/-- The displayed list of the Users page: the fetched users filtered by the
three predicates and then sorted by the comparator.  Array.prototype.sort is
stable, so it is modelled by a stable sort with the comparator's order. -/
def filteredUsers (q : FilterState) (users : List User) : List User :=
  List.insertionSort (userOrder q.sortDirection) (users.filter (matchesFilters q))

/-- Local users list after handleDelete(userId): the delete call is awaited
first; only when it resolves is the list replaced by the filter excluding
that id, while a rejected call leaves the list untouched (the catch branch
only raises a toast). -/
def handleDelete (r : ApiResult) (users : List User) (userId : Nat) : List User :=
  match r with
  | .success => users.filter (fun u => u.id != userId)
  | .failure => users

/-- Local users list after handleUpdate for the selected user: the update
call is awaited first; only when it resolves is the list mapped so that the
record with the selected id is replaced by the edited record, while a
rejected call leaves the list untouched. -/
def handleUpdate (r : ApiResult) (users : List User) (sel : User) : List User :=
  match r with
  | .success => users.map (fun u => if u.id = sel.id then sel else u)
  | .failure => users

/-- The email-domain filter options offered by the Users page: the Set
collected by adding the split-derived domain of every fetched user (an email
without an at sign contributes undefined, modelled as None). -/
def emailDomains (users : List User) : Finset (Option String) :=
  (users.map (fun u => emailDomain u.email)).toFinset

/-- Shape of the reqres list-users response consumed by fetchUsers. -/
structure UsersResponse where
  data : List User
  total_pages : Nat

/-- State written by fetchUsers on success: the users list is set to the
response's data array verbatim and totalPages to its total_pages field. -/
def fetchUsersResult (resp : UsersResponse) : List User × Nat :=
  (resp.data, resp.total_pages)

/-- JSON values as produced and consumed by the filter persistence code. -/
inductive Json where
  | str : String → Json
  | arr : List Json → Json
  | obj : List (String × Json) → Json

/-- Property lookup on a parsed JSON value, as the destructuring read of the
loaded filters performs it. -/
def jsonLookup (j : Json) (key : String) : Option Json :=
  match j with
  | .obj fields => (fields.find? (fun kv => kv.1 == key)).map (fun kv => kv.2)
  | _ => none

/-- String stored for each sort direction. -/
def sortDirectionToString : SortDirection → String
  | .asc => "asc"
  | .desc => "desc"

/-- Reading of a stored sort-direction string back into the union type. -/
def parseSortDirection (s : String) : Option SortDirection :=
  if s = "asc" then some SortDirection.asc
  else if s = "desc" then some SortDirection.desc
  else none

/-- The flat object the save effect serializes into browser storage under
the userFilters key: the selected letter, the sort direction and
Array.from of the selected-domain Set. -/
def saveFilters (letter : String) (dir : SortDirection) (domains : List String) : Json :=
  .obj
    [("selectedLetter", .str letter),
     ("sortDirection", .str (sortDirectionToString dir)),
     ("selectedDomains", .arr (domains.map Json.str))]

/-- Reading of a parsed JSON array back into a string list; fails on any
element that is not a string. -/
def jsonToStringList : List Json → Option (List String)
  | [] => some []
  | .str s :: rest => (jsonToStringList rest).map (fun l => s :: l)
  | _ => none

/-- The load effect: parse the stored object, destructure the three
properties and rebuild the Set from the stored array with new Set(array). -/
def loadFilters (j : Json) : Option (String × SortDirection × List String) :=
  match jsonLookup j "selectedLetter", jsonLookup j "sortDirection",
      jsonLookup j "selectedDomains" with
  | some (.str letter), some (.str dir), some (.arr ds) =>
    match parseSortDirection dir, jsonToStringList ds with
    | some direction, some domains => some (letter, direction, jsNewSet domains)
    | _, _ => none
  | _, _, _ => none

/-- Authorization header attached by the axios request interceptor: when the
token read from browser storage is truthy it sets Bearer followed by the
token, otherwise the header is left unset.  The empty string is falsy in
JavaScript. -/
def requestAuthHeader (storedToken : Option String) : Option String :=
  match storedToken with
  | some t => if t = "" then none else some ("Bearer " ++ t)
  | none => none

/-- Body of a successful reqres login response: it may or may not carry a
token field. -/
structure LoginResponse where
  token : Option String
deriving DecidableEq

/-- The login wrapper of the api module: a resolved post returns the
response body, a rejected post is caught and rethrown as the fixed message
Invalid credentials. -/
def login (r : Except Unit LoginResponse) : Except String LoginResponse :=
  match r with
  | .ok resp => .ok resp
  | .error _ => .error "Invalid credentials"

/-- Token cell of browser storage after the login submit handler ran with
the given API outcome: only a resolved login whose response carries a truthy
token writes the token under the token key; every other path stores
nothing. -/
def tokenStoredAfterLogin (r : Except Unit LoginResponse) : Option String :=
  match login r with
  | .ok resp =>
    match resp.token with
    | some t => if t = "" then none else some t
    | none => none
  | .error _ => none

/-- What the users route element renders. -/
inductive RouteOutcome where
  | renderUsers
  | redirectLogin
deriving DecidableEq

/-- The PrivateRoute guard of the users route: it reads the token key from
browser storage and renders its children when the value is truthy, otherwise
it renders a Navigate to the login route.  The empty string is falsy in
JavaScript. -/
def privateRoute (storedToken : Option String) : RouteOutcome :=
  match storedToken with
  | some t => if t = "" then .redirectLogin else .renderUsers
  | none => .redirectLogin

/-- Non-empty run of non-whitespace characters, the meaning of one
backslash-S-plus group of the validation pattern. -/
def isNonSpaceRun (l : List Char) : Bool :=
  !l.isEmpty && l.all (fun c => !c.isWhitespace)

/-- All decompositions of a list into a prefix and the matching suffix. -/
def splitsList (l : List Char) : List (List Char × List Char) :=
  (List.range (l.length + 1)).map (fun i => (l.take i, l.drop i))

/-- Exact match of a character list against the validation pattern: a
non-space run, an at sign, a non-space run, a dot, a non-space run. -/
def matchesEmailPattern (m : List Char) : Bool :=
  (splitsList m).any (fun p =>
    isNonSpaceRun p.1 &&
      match p.2 with
      | '@' :: r2 =>
        (splitsList r2).any (fun q =>
          isNonSpaceRun q.1 &&
            match q.2 with
            | '.' :: c => isNonSpaceRun c
            | _ => false)
      | _ => false)

/-- Model of the unanchored regular-expression test used by the login form:
some contiguous substring of the email matches the pattern. -/
def emailRegexTest (s : String) : Bool :=
  (splitsList s.data).any (fun p => (splitsList p.2).any (fun q => matchesEmailPattern q.1))

/-- The error-message pair held in the login form state. -/
structure FormErrors where
  email : String
  password : String
deriving DecidableEq

/-- validateForm of the login page: the email must be non-empty and pass the
pattern test, the password must be non-empty and at least 4 characters; the
first failing check of each field selects its error message. -/
def validateForm (email password : String) : Bool × FormErrors :=
  let emailCheck :=
    if email = "" then (false, "Email is required")
    else if !emailRegexTest email then (false, "Please enter a valid email")
    else (true, "")
  let passwordCheck :=
    if password = "" then (false, "Password is required")
    else if password.length < 4 then (false, "Password must be at least 4 characters")
    else (true, "")
  (emailCheck.1 && passwordCheck.1, ⟨emailCheck.2, passwordCheck.2⟩)

/-- Externally visible effect of one run of the login submit handler:
whether the login request was issued, what the token cell of browser storage
holds afterwards, and the resulting form error state. -/
structure SubmitEffect where
  requestSent : Bool
  tokenWritten : Option String
  errors : FormErrors
deriving DecidableEq

/-- The submit handler of the login form: an invalid form returns before any
network call, leaving only the error messages set; a valid form issues the
login call, stores a truthy returned token, and on rejection sets both error
messages to the fixed text. -/
def handleSubmit (email password : String) (apiResult : Except Unit LoginResponse) :
    SubmitEffect :=
  let v := validateForm email password
  if v.1 then
    match login apiResult with
    | .ok resp =>
      match resp.token with
      | some t => if t = "" then ⟨true, none, ⟨"", ""⟩⟩ else ⟨true, some t, ⟨"", ""⟩⟩
      | none => ⟨true, none, ⟨"", ""⟩⟩
    | .error _ => ⟨true, none, ⟨"Invalid email or password", "Invalid email or password"⟩⟩
  else ⟨false, none, v.2⟩

/-- Sample record shaped like the first user of the reqres first page. -/
def georgeUser : User :=
  ⟨1, "George", "Bluth", "george.bluth@reqres.in", "g.jpg"⟩

/-- Sample record shaped like the second user of the reqres first page. -/
def janetUser : User :=
  ⟨2, "Janet", "Weaver", "janet.weaver@reqres.in", "j.jpg"⟩

/-!
Helper lemmas about the character-level split, the two domain readings, the
Set model and the validation predicate.
-/

/-- Splitting never yields an empty list of pieces. -/
lemma splitOnChar_ne_nil (sep : Char) (l : List Char) : splitOnChar sep l ≠ [] := by
  induction l with
  | nil => simp [splitOnChar]
  | cons c cs ih =>
    simp only [splitOnChar]
    by_cases hc : c = sep
    · simp [hc]
    · rw [if_neg hc]
      cases hsp : splitOnChar sep cs with
      | nil => exact absurd hsp ih
      | cons h t => simp

/-- A one-piece split means the separator never occurred: the piece is the
whole list. -/
lemma splitOnChar_eq_singleton (sep : Char) :
    ∀ (l x : List Char), splitOnChar sep l = [x] → l = x := by
  intro l
  induction l with
  | nil =>
    intro x h
    simp only [splitOnChar] at h
    exact (List.cons.injEq _ _ _ _ ▸ h).1.symm ▸ rfl
  | cons c cs ih =>
    intro x h
    by_cases hc : c = sep
    · subst hc
      simp only [splitOnChar, if_pos rfl] at h
      exact absurd (List.cons.inj h).2 (splitOnChar_ne_nil c cs)
    · simp only [splitOnChar, if_neg hc] at h
      cases hsp : splitOnChar sep cs with
      | nil => exact absurd hsp (splitOnChar_ne_nil sep cs)
      | cons hd tl =>
        rw [hsp] at h
        obtain ⟨h1, h2⟩ := List.cons.inj h
        subst h2
        rw [← h1, ih hd hsp]

/-- On a two-piece split the second piece is exactly the tail after the
first separator. -/
lemma afterFirst_of_splitOnChar_pair (sep : Char) :
    ∀ (l a b : List Char), splitOnChar sep l = [a, b] → afterFirst sep l = some b := by
  intro l
  induction l with
  | nil =>
    intro a b h
    simp [splitOnChar] at h
  | cons c cs ih =>
    intro a b h
    by_cases hc : c = sep
    · subst hc
      simp only [splitOnChar, if_pos rfl] at h
      obtain ⟨-, h2⟩ := List.cons.inj h
      have hcs : cs = b := splitOnChar_eq_singleton c cs b h2
      subst hcs
      simp [afterFirst]
    · simp only [splitOnChar, if_neg hc] at h
      cases hsp : splitOnChar sep cs with
      | nil => exact absurd hsp (splitOnChar_ne_nil sep cs)
      | cons hd tl =>
        rw [hsp] at h
        obtain ⟨-, h2⟩ := List.cons.inj h
        have hpair : splitOnChar sep cs = [hd, b] := by rw [hsp, h2]
        simpa [afterFirst, hc] using ih hd b hpair

/-- On an email with exactly one at sign, the split-derived domain and the
substring after the first at sign agree and are both defined. -/
lemma emailDomain_wellFormed (email : String) (h : wellFormedEmail email = true) :
    ∃ d, emailDomain email = some d ∧ specDomain email = some d := by
  have hlen : (splitOnChar '@' email.data).length = 2 := by
    simpa [wellFormedEmail] using h
  obtain ⟨a, b, hab⟩ := List.length_eq_two.mp hlen
  refine ⟨String.mk b, ?_, ?_⟩
  · simp [emailDomain, hab]
  · simp [specDomain, afterFirst_of_splitOnChar_pair '@' email.data a b hab]

/-- The two domain readings coincide on well-formed emails. -/
lemma emailDomain_eq_specDomain (email : String) (h : wellFormedEmail email = true) :
    emailDomain email = specDomain email := by
  obtain ⟨d, h1, h2⟩ := emailDomain_wellFormed email h
  rw [h1, h2]

/-- The two domain predicates coincide on well-formed emails. -/
lemma domainMatch_eq_specDomainMatch (sd : List String) (email : String)
    (h : wellFormedEmail email = true) : domainMatch sd email = specDomainMatch sd email := by
  rw [domainMatch, specDomainMatch, emailDomain_eq_specDomain email h]

/-- The full filter predicate coincides with its claim-side reading on
well-formed emails. -/
lemma matchesFilters_eq_specMatches (q : FilterState) (u : User)
    (h : wellFormedEmail u.email = true) : matchesFilters q u = specMatches q u := by
  rw [matchesFilters, specMatches, domainMatch_eq_specDomainMatch q.selectedDomains u.email h]

/-- Filtering a map through an everywhere-defined partial function is the
map itself. -/
lemma filterMap_map_some {α β : Type} (f : α → Option β) :
    ∀ l : List α, (∀ a ∈ l, (f a).isSome) → (l.filterMap f).map some = l.map f := by
  intro l
  induction l with
  | nil => simp
  | cons a l ih =>
    intro h
    obtain ⟨b, hb⟩ := Option.isSome_iff_exists.mp (h a (by simp))
    have hrest : ∀ x ∈ l, (f x).isSome := fun x hx => h x (by simp [hx])
    simp [List.filterMap_cons, hb, ih hrest]

/-- Reading back a serialized string array recovers the strings. -/
lemma jsonToStringList_map (l : List String) :
    jsonToStringList (l.map Json.str) = some l := by
  induction l with
  | nil => simp [jsonToStringList]
  | cons s rest ih => simp [jsonToStringList, ih]

/-- The Set constructor folded over a duplicate-free list, starting from a
disjoint accumulator, appends the list unchanged. -/
lemma jsNewSet_foldl (l : List String) :
    ∀ acc : List String, (∀ x ∈ l, x ∉ acc) → l.Nodup →
      l.foldl (fun acc s => if acc.contains s then acc else acc ++ [s]) acc = acc ++ l := by
  induction l with
  | nil => intro acc _ _; simp
  | cons a l ih =>
    intro acc hdis hnd
    have ha : acc.contains a = false := by
      have : a ∉ acc := hdis a (by simp)
      simpa using this
    have hdis' : ∀ x ∈ l, x ∉ acc ++ [a] := by
      intro x hx
      simp only [List.mem_append, List.mem_singleton]
      rintro (hxa | hxe)
      · exact hdis x (by simp [hx]) hxa
      · exact (List.nodup_cons.mp hnd).1 (hxe ▸ hx)
    have hnd' : l.Nodup := (List.nodup_cons.mp hnd).2
    have hstep : (a :: l).foldl (fun acc s => if acc.contains s then acc else acc ++ [s]) acc
        = l.foldl (fun acc s => if acc.contains s then acc else acc ++ [s]) (acc ++ [a]) := by
      rw [List.foldl_cons]
      congr 1
      have hmem : a ∉ acc := hdis a (by simp)
      simp [hmem]
    rw [hstep, ih (acc ++ [a]) hdis' hnd']
    simp

/-- Rebuilding a Set from the element list of a Set gives the same
elements in the same order. -/
lemma jsNewSet_eq_self (l : List String) (h : l.Nodup) : jsNewSet l = l := by
  simpa [jsNewSet] using jsNewSet_foldl l [] (by simp) h

/-- The validity bit of validateForm is exactly the conjunction of the four
checks of the claim. -/
lemma validateForm_fst_iff (email password : String) :
    (validateForm email password).1 = true ↔
      (email ≠ "" ∧ emailRegexTest email = true ∧ password ≠ "" ∧
        4 ≤ password.length) := by
  simp only [validateForm]
  by_cases he : email = "" <;> by_cases hr : emailRegexTest email <;>
    by_cases hp : password = "" <;> by_cases hl : password.length < 4 <;>
      simp [he, hr, hp, hl] <;> try omega

/-- A fully empty error pair can only come out of a run in which every
check passed. -/
lemma validateForm_errors_empty (email password : String)
    (h : (validateForm email password).2 = ⟨"", ""⟩) :
    (validateForm email password).1 = true := by
  simp only [validateForm] at h ⊢
  by_cases he : email = "" <;> by_cases hr : emailRegexTest email <;>
    by_cases hp : password = "" <;> by_cases hl : password.length < 4 <;>
      simp [he, hr, hp, hl, FormErrors.mk.injEq] at h ⊢

/-!
Claims.
-/

/-- Claim C1 (counterexample): for the email x@y@z.com the domain in the
sense of the claim — the substring after the at sign — is y@z.com, but the
page filters with element 1 of the split, which is y; with y@z.com selected
the claim says the user is displayed while filteredUsers drops it. -/
theorem c1_filteredUsers_cex :
    ¬ ((⟨1, "Ann", "Lee", "x@y@z.com", "av"⟩ : User) ∈
        filteredUsers ⟨"", "", SortDirection.asc, ["y@z.com"]⟩
          [⟨1, "Ann", "Lee", "x@y@z.com", "av"⟩] ↔
      ((⟨1, "Ann", "Lee", "x@y@z.com", "av"⟩ : User) ∈
          [(⟨1, "Ann", "Lee", "x@y@z.com", "av"⟩ : User)] ∧
        specMatches ⟨"", "", SortDirection.asc, ["y@z.com"]⟩
          ⟨1, "Ann", "Lee", "x@y@z.com", "av"⟩ = true)) := by
  decide

/-- Claim C1 (amended): for users whose emails contain exactly one at sign —
where element 1 of the split is the substring after the at sign — the
displayed list contains exactly the users passing the three predicates
(case-insensitive search over full name and email, case-insensitive first
letter of the first name, email domain in the selected set, each vacuous
when unset), is a permutation of the filtered list, and is ordered by the
lowercased full name, ascending under asc and descending under desc. -/
theorem c1_filteredUsers_amended (q : FilterState) (users : List User)
    (h : ∀ u ∈ users, wellFormedEmail u.email = true) :
    (∀ u, u ∈ filteredUsers q users ↔ (u ∈ users ∧ specMatches q u = true)) ∧
    (filteredUsers q users).Perm (users.filter (specMatches q)) ∧
    (q.sortDirection = SortDirection.asc →
      (filteredUsers q users).Pairwise (fun a b => sortKey a ≤ sortKey b)) ∧
    (q.sortDirection = SortDirection.desc →
      (filteredUsers q users).Pairwise (fun a b => sortKey b ≤ sortKey a)) := by
  have hfilter : users.filter (matchesFilters q) = users.filter (specMatches q) :=
    List.filter_congr (fun u hu => by rw [matchesFilters_eq_specMatches q u (h u hu)])
  have hperm : (filteredUsers q users).Perm (users.filter (specMatches q)) := by
    rw [filteredUsers, hfilter]
    exact List.perm_insertionSort _ _
  have hsorted : (filteredUsers q users).Pairwise (userOrder q.sortDirection) :=
    List.sorted_insertionSort (userOrder q.sortDirection) (users.filter (matchesFilters q))
  refine ⟨?_, hperm, ?_, ?_⟩
  · intro u
    rw [hperm.mem_iff, List.mem_filter]
  · intro hdir
    rw [hdir] at hsorted
    exact hsorted.imp (fun hab => hab)
  · intro hdir
    rw [hdir] at hsorted
    exact hsorted.imp (fun hab => hab)

/-- Claim C1 (witness): the amended theorem applied to the first two reqres
users with the search term e, descending sort and the domain reqres.in
selected. -/
theorem c1_filteredUsers_witness :
    (∀ u, u ∈ filteredUsers ⟨"e", "", SortDirection.desc, ["reqres.in"]⟩
          [georgeUser, janetUser] ↔
      (u ∈ [georgeUser, janetUser] ∧
        specMatches ⟨"e", "", SortDirection.desc, ["reqres.in"]⟩ u = true)) ∧
    (filteredUsers ⟨"e", "", SortDirection.desc, ["reqres.in"]⟩
        [georgeUser, janetUser]).Perm
      ([georgeUser, janetUser].filter
        (specMatches ⟨"e", "", SortDirection.desc, ["reqres.in"]⟩)) ∧
    ((⟨"e", "", SortDirection.desc, ["reqres.in"]⟩ : FilterState).sortDirection =
        SortDirection.asc →
      (filteredUsers ⟨"e", "", SortDirection.desc, ["reqres.in"]⟩
          [georgeUser, janetUser]).Pairwise (fun a b => sortKey a ≤ sortKey b)) ∧
    ((⟨"e", "", SortDirection.desc, ["reqres.in"]⟩ : FilterState).sortDirection =
        SortDirection.desc →
      (filteredUsers ⟨"e", "", SortDirection.desc, ["reqres.in"]⟩
          [georgeUser, janetUser]).Pairwise (fun a b => sortKey b ≤ sortKey a)) :=
  c1_filteredUsers_amended ⟨"e", "", SortDirection.desc, ["reqres.in"]⟩
    [georgeUser, janetUser] (by decide)

/-- Claim C2 (counterexample): when the delete call rejects, the handler
leaves the list unchanged instead of excluding the id, so the local
reconciliation is conditioned on the API outcome. -/
theorem c2_optimistic_cex :
    ¬ (handleDelete ApiResult.failure [georgeUser] 1 =
        [georgeUser].filter (fun u => u.id != 1)) := by
  decide

/-- Claim C2 (amended): the reconciliation happens exactly when the awaited
API call resolves — a resolved delete leaves the list containing exactly the
records with a different id, a resolved update replaces the record carrying
the selected id by the edited record — while a rejected call leaves the
local list unchanged. -/
theorem c2_reconcile_amended (users : List User) (userId : Nat) (sel : User) :
    (∀ u, u ∈ handleDelete ApiResult.success users userId ↔ (u ∈ users ∧ u.id ≠ userId)) ∧
    handleUpdate ApiResult.success users sel =
      users.map (fun u => if u.id = sel.id then sel else u) ∧
    handleDelete ApiResult.failure users userId = users ∧
    handleUpdate ApiResult.failure users sel = users := by
  refine ⟨?_, rfl, rfl, rfl⟩
  intro u
  simp [handleDelete, List.mem_filter]

/-- Claim C3: saving the flat filter object to storage as JSON and loading
it back — destructuring the three properties and rebuilding the Set from
the stored array — recovers the letter, the direction and the same set of
domains, a JavaScript Set being a duplicate-free insertion-ordered list. -/
theorem c3_filters_roundtrip (letter : String) (dir : SortDirection)
    (domains : List String) (h : domains.Nodup) :
    loadFilters (saveFilters letter dir domains) = some (letter, dir, domains) := by
  cases dir <;>
    simp [loadFilters, saveFilters, jsonLookup, sortDirectionToString, parseSortDirection,
      List.find?, jsonToStringList_map domains, jsNewSet_eq_self domains h]

/-- Claim C3 (witness): the round trip at a concrete filter state. -/
theorem c3_filters_roundtrip_witness :
    loadFilters (saveFilters "G" SortDirection.desc ["reqres.in", "example.com"]) =
      some ("G", SortDirection.desc, ["reqres.in", "example.com"]) :=
  c3_filters_roundtrip "G" SortDirection.desc ["reqres.in", "example.com"] (by decide)

/-- Claim C4 (counterexample): with the empty string stored under the token
key a token string is present in storage, yet the interceptor attaches no
Authorization header because the empty string is falsy. -/
theorem c4_bearer_cex :
    ¬ (requestAuthHeader (some "") = some ("Bearer " ++ "")) := by
  decide

/-- Claim C4 (amended): when a non-empty token string is present in storage
the request carries Authorization Bearer followed by the token; when no
token is present, or the stored value is the empty string, no Authorization
header is added. -/
theorem c4_bearer_amended (t : String) (h : t ≠ "") :
    requestAuthHeader (some t) = some ("Bearer " ++ t) ∧
    requestAuthHeader none = none ∧
    requestAuthHeader (some "") = none := by
  refine ⟨?_, rfl, rfl⟩
  simp [requestAuthHeader, h]

/-- Claim C4 (witness): the amended theorem at the token string the reqres
login endpoint returns. -/
theorem c4_bearer_witness :
    requestAuthHeader (some "QpwL5tke4Pnpja7X4") =
      some ("Bearer " ++ "QpwL5tke4Pnpja7X4") ∧
    requestAuthHeader none = none ∧
    requestAuthHeader (some "") = none :=
  c4_bearer_amended "QpwL5tke4Pnpja7X4" (by decide)

/-- Claim C5 (counterexample): a resolved login response carrying the empty
string as its token contains a token, yet the submit handler stores nothing
because the empty string is falsy. -/
theorem c5_login_cex :
    ¬ (tokenStoredAfterLogin (Except.ok ⟨some ""⟩) = some "") := by
  decide

/-- Claim C5 (amended): when the login call resolves and the response
carries a non-empty token, that token is written to storage under the token
key; when the login call rejects, the login wrapper rethrows the fixed
message Invalid credentials and nothing is stored. -/
theorem c5_login_amended (t : String) (h : t ≠ "") :
    tokenStoredAfterLogin (Except.ok ⟨some t⟩) = some t ∧
    login (Except.error ()) = Except.error "Invalid credentials" ∧
    tokenStoredAfterLogin (Except.error ()) = none := by
  refine ⟨?_, rfl, rfl⟩
  simp [tokenStoredAfterLogin, login, h]

/-- Claim C5 (witness): the amended theorem at the token string the reqres
login endpoint returns. -/
theorem c5_login_witness :
    tokenStoredAfterLogin (Except.ok ⟨some "QpwL5tke4Pnpja7X4"⟩) =
      some "QpwL5tke4Pnpja7X4" ∧
    login (Except.error ()) = Except.error "Invalid credentials" ∧
    tokenStoredAfterLogin (Except.error ()) = none :=
  c5_login_amended "QpwL5tke4Pnpja7X4" (by decide)

/-- Claim C6 (counterexample): with the empty string stored under the token
key a token is present in storage, yet PrivateRoute redirects to the login
route because the empty string is falsy. -/
theorem c6_guard_cex :
    ¬ (privateRoute (some "") = RouteOutcome.renderUsers) := by
  decide

/-- Claim C6 (amended): the users route renders the user list exactly when a
non-empty token is present in storage; with no token, or with the empty
string stored, it redirects to the login route. -/
theorem c6_guard_amended (t : String) (h : t ≠ "") :
    privateRoute (some t) = RouteOutcome.renderUsers ∧
    privateRoute none = RouteOutcome.redirectLogin ∧
    privateRoute (some "") = RouteOutcome.redirectLogin := by
  refine ⟨?_, rfl, rfl⟩
  simp [privateRoute, h]

/-- Claim C6 (witness): the amended theorem at a concrete token. -/
theorem c6_guard_witness :
    privateRoute (some "QpwL5tke4Pnpja7X4") = RouteOutcome.renderUsers ∧
    privateRoute none = RouteOutcome.redirectLogin ∧
    privateRoute (some "") = RouteOutcome.redirectLogin :=
  c6_guard_amended "QpwL5tke4Pnpja7X4" (by decide)

/-- Claim C7 (counterexample): for the email x@y@z.com the offered option is
y, element 1 of the split, while the set of substrings after the at sign
holds y@z.com, so the two sets differ. -/
theorem c7_domains_cex :
    ¬ (emailDomains [⟨1, "A", "B", "x@y@z.com", "v"⟩] =
        (([(⟨1, "A", "B", "x@y@z.com", "v"⟩ : User)].filterMap
            (fun u => specDomain u.email)).map some).toFinset) := by
  decide

/-- Claim C7 (amended): for users whose emails contain exactly one at sign,
the set of email-domain options offered equals exactly the set of distinct
substrings after the at sign of those users' emails: no outside domain is
offered and every present domain is offered. -/
theorem c7_domains_amended (users : List User)
    (h : ∀ u ∈ users, wellFormedEmail u.email = true) :
    emailDomains users =
      ((users.filterMap (fun u => specDomain u.email)).map some).toFinset := by
  have hmap : users.map (fun u => emailDomain u.email) =
      users.map (fun u => specDomain u.email) :=
    List.map_congr_left (fun u hu => emailDomain_eq_specDomain u.email (h u hu))
  have hsome : ∀ u ∈ users, (specDomain u.email).isSome := by
    intro u hu
    obtain ⟨d, -, h2⟩ := emailDomain_wellFormed u.email (h u hu)
    simp [h2]
  rw [emailDomains, hmap, filterMap_map_some (fun u => specDomain u.email) users hsome]

/-- Claim C7 (witness): the amended theorem on two users sharing the
reqres.in domain. -/
theorem c7_domains_witness :
    emailDomains [georgeUser, janetUser] =
      (([georgeUser, janetUser].filterMap (fun u => specDomain u.email)).map some).toFinset :=
  c7_domains_amended [georgeUser, janetUser] (by decide)

/-- Claim C8 (counterexample): after an edit of the selected user is saved,
the list carries the locally edited record, whose field values match no
record returned by the list-users call. -/
theorem c8_verbatim_cex :
    ¬ (∀ u ∈ handleUpdate ApiResult.success [georgeUser]
          (⟨1, "Georgia", "Bluth", "george.bluth@reqres.in", "g.jpg"⟩ : User),
        u ∈ [georgeUser]) := by
  decide

/-- Claim C8 (amended): users enter local state verbatim from the
list-users response — fetching stores the data array unchanged — and stay
verbatim except through the edit flow: after a saved update every record is
either an original fetched record or the locally edited selected record,
and a delete introduces no record at all. -/
theorem c8_verbatim_amended (resp : UsersResponse) (users : List User) (sel : User)
    (userId : Nat) :
    (fetchUsersResult resp).1 = resp.data ∧
    (∀ u ∈ handleUpdate ApiResult.success users sel, u ∈ users ∨ u = sel) ∧
    (∀ u ∈ handleDelete ApiResult.success users userId, u ∈ users) := by
  refine ⟨rfl, ?_, ?_⟩
  · intro u hu
    simp only [handleUpdate, List.mem_map] at hu
    obtain ⟨a, ha, hval⟩ := hu
    by_cases hid : a.id = sel.id
    · right
      rw [← hval]
      simp [hid]
    · left
      rw [← hval]
      simpa [hid] using ha
  · intro u hu
    exact (List.mem_filter.mp hu).1

/-- Claim C9: a resolved delete removes exactly the records carrying the
deleted id — membership, multiplicity and relative order of all other
records are preserved, the result being a sublist of the original. -/
theorem c9_delete_frame (users : List User) (userId : Nat) :
    (∀ u, u ∈ handleDelete ApiResult.success users userId ↔ (u ∈ users ∧ u.id ≠ userId)) ∧
    (∀ u, (handleDelete ApiResult.success users userId).count u =
        if u.id = userId then 0 else users.count u) ∧
    (handleDelete ApiResult.success users userId).Sublist users := by
  refine ⟨?_, ?_, List.filter_sublist users⟩
  · intro u
    simp [handleDelete, List.mem_filter]
  · intro u
    by_cases hid : u.id = userId
    · rw [if_pos hid, handleDelete]
      rw [List.count_eq_zero]
      intro hmem
      exact absurd hid (by simpa using (List.mem_filter.mp hmem).2)
    · rw [if_neg hid, handleDelete]
      exact List.count_filter (by simpa using hid)

/-- Claim C10: whenever any of the four validation checks fails — empty
email, email not matching the pattern, empty password, password shorter
than 4 — the submit handler issues no login request and writes no token;
the only effect is the error-message state computed by validateForm, which
is then not the empty pair. -/
theorem c10_validation_gate (email password : String) (r : Except Unit LoginResponse)
    (h : ¬ (email ≠ "" ∧ emailRegexTest email = true ∧ password ≠ "" ∧
        4 ≤ password.length)) :
    (handleSubmit email password r).requestSent = false ∧
    (handleSubmit email password r).tokenWritten = none ∧
    (handleSubmit email password r).errors = (validateForm email password).2 ∧
    (validateForm email password).2 ≠ ⟨"", ""⟩ := by
  have hv : (validateForm email password).1 = false := by
    cases hb : (validateForm email password).1
    · rfl
    · exact absurd ((validateForm_fst_iff email password).mp hb) h
  have hs : handleSubmit email password r = ⟨false, none, (validateForm email password).2⟩ := by
    simp [handleSubmit, hv]
  rw [hs]
  refine ⟨rfl, rfl, rfl, ?_⟩
  intro hempty
  rw [validateForm_errors_empty email password hempty] at hv
  exact Bool.noConfusion hv

/-- Claim C10 (witness): the gate at an invalid email and a short password,
with a login outcome that would have produced a token. -/
theorem c10_validation_gate_witness :
    (handleSubmit "bad" "x" (Except.ok ⟨some "tkn"⟩)).requestSent = false ∧
    (handleSubmit "bad" "x" (Except.ok ⟨some "tkn"⟩)).tokenWritten = none ∧
    (handleSubmit "bad" "x" (Except.ok ⟨some "tkn"⟩)).errors = (validateForm "bad" "x").2 ∧
    (validateForm "bad" "x").2 ≠ ⟨"", ""⟩ :=
  c10_validation_gate "bad" "x" (Except.ok ⟨some "tkn"⟩) (by decide)

end EmployWise
